import Mathlib

/-!
Verification of the `account activate` command of the amazon-genomics-cli
repository (file `packages/cli/internal/pkg/cli/account_activate.go`).

The Go code is a linear orchestration over four external collaborators
(identity, object storage, container registry, deployment tool).  We embed
it shallowly: every collaborator is an oracle function collected in a
`World` record, and each embedded operation returns, besides its result,
the list of collaborator calls it performed and the log lines it emitted,
so that call-ordering and short-circuit properties become statements about
those traces.
-/

/-- Opaque Go `error` value; only identity matters to this component. -/
structure GoError where
  msg : String
deriving DecidableEq

/-- Mirrors `ecr.ImageReference` as used by the source file: a static
descriptor of a container image location. -/
structure ImageReference where
  RegistryId : String
  Region : String
  ImageTag : String
  RepositoryName : String
deriving DecidableEq

/-- Go zero value of `ImageReference` (returned by a Go map index on a
missing key). -/
def ImageReference.zero : ImageReference := ⟨"", "", "", ""⟩

/-- Mirrors `cdk.ProgressEvent`: accumulated output lines plus an optional
terminal error. -/
structure ProgressEvent where
  Outputs : List String
  Err : Option GoError
deriving DecidableEq

/-- Go zero value of `cdk.ProgressEvent` (the initial `lastEvent`). -/
def ProgressEvent.zero : ProgressEvent := ⟨[], none⟩

/-- Mirrors `accountActivateVars`: the two user-supplied flag values. -/
structure accountActivateVars where
  bucketName : String
  vpcId : String
deriving DecidableEq

/-- Mirrors `accountActivateOpts` (the collaborator clients live in
`World`; the Go struct embeds `accountActivateVars`, flattened here). -/
structure accountActivateOpts where
  bucketName : String
  vpcId : String
  imageRefs : List (String × ImageReference)
  region : String
deriving DecidableEq

/-- One collaborator call, recorded in the trace of a run. -/
inductive Call where
  | getAccount : Call
  | bucketExists (name : String) : Call
  | verifyImageExists (ref : ImageReference) : Call
  | determineHomeDir : Call
  | deployApp (path : String) (environmentVars : List String) : Call
  | displayProgress (label : String) : Call
deriving DecidableEq

/-- The external collaborators consumed by the command, as deterministic
oracles: `stsClient.GetAccount`, `s3Client.BucketExists`,
`ecrClient.VerifyImageExists`, `DetermineHomeDir`, `cdkClient.DeployApp`
(whose progress stream is modelled as the finite list of events it will
deliver), `ProgressStream.DisplayProgress` and the global
`logging.Verbose` flag. -/
structure World where
  getAccount : Except GoError String
  bucketExists : String → Except GoError Bool
  verifyImageExists : ImageReference → Except GoError Unit
  determineHomeDir : Except GoError String
  deployApp : String → List String → Except GoError (List ProgressEvent)
  displayProgress : List ProgressEvent → String → Option GoError
  verbose : Bool

/-- Source constant `cdkCoreDir`. -/
def cdkCoreDir : String := ".agc/cdk/apps/core"

/-- Source constant `bucketPrefix`. -/
def bucketPrefix : String := "agc"

/-- Modelled from the spec: the logical image keys
(`environment.WesImageKey` and friends come from the `environment`
package, which is not part of the provided sources); the spec names the
logical keys "wes-image", "cromwell-image", "nextflow-image". -/
def WesImageKey : String := "wes-image"

/-- Modelled from the spec: see `WesImageKey`. -/
def CromwellImageKey : String := "cromwell-image"

/-- Modelled from the spec: see `WesImageKey`. -/
def NextflowImageKey : String := "nextflow-image"

/-- Modelled from the spec: `generateBucketName` is defined outside the
provided sources; the spec fixes the template
"prefix + account id + region, e.g. agc-accountId-region" with the
source constant ` bucketPrefix` = "agc". -/
def generateBucketName (account region : String) : String :=
  bucketPrefix ++ "-" ++ account ++ "-" ++ region

/-- Go `fmt.Sprintf` with verb `%t`. -/
def formatBool (b : Bool) : String := if b then "true" else "false"

/-- Model of Go `filepath.Join` for the two-component, already-clean paths
used here. -/
def filepathJoin (a b : String) : String :=
  if a = "" then b else if b = "" then a else a ++ "/" ++ b

/-- Go map index `m[k]`: the mapped value, or the zero value when the key
is absent.  The Go map is embedded as an association list. -/
def mapIndex (m : List (String × ImageReference)) (k : String) : ImageReference :=
  match m.find? (fun p => p.1 == k) with
  | some p => p.2
  | none => ImageReference.zero

/-- Mirrors `generateDefaultBucket`: ask the identity service for the
account and apply the naming template. -/
def accountActivateOpts.generateDefaultBucket (o : accountActivateOpts) (w : World) :
    Except GoError String :=
  match w.getAccount with
  | .error e => .error e
  | .ok account => .ok (generateBucketName account o.region)

/-- The first block of `Execute` (lines 62-69): fill in `bucketName` when
it is empty, short-circuiting on an identity-lookup error.  Returns the
updated options and the collaborator calls made. -/
def resolveOpts (w : World) (o : accountActivateOpts) :
    Except GoError accountActivateOpts × List Call :=
  if o.bucketName = "" then
    match o.generateDefaultBucket w with
    | .error e => (.error e, [Call.getAccount])
    | .ok bucketName => (.ok { o with bucketName := bucketName }, [Call.getAccount])
  else
    (.ok o, [])

/-- The `for _, imageRef := range o.imageRefs` loop of `Execute`:
sequential verification, stopping at the first error.  Returns the loop
result and the verification calls made. -/
def verifyImages (w : World) : List (String × ImageReference) → Option GoError × List Call
  | [] => (none, [])
  | (_, ref) :: rest =>
    match w.verifyImageExists ref with
    | .error e => (some e, [Call.verifyImageExists ref])
    | .ok _ =>
      let r := verifyImages w rest
      (r.1, Call.verifyImageExists ref :: r.2)

/-- The `environmentVars` literal of `Execute` (lines 82-103), including
the conditional `VPC_ID` append. -/
def buildEnvironmentVars (o : accountActivateOpts) (bucketAlreadyExists : Bool) :
    List String :=
  let wes := mapIndex o.imageRefs WesImageKey
  let cromwell := mapIndex o.imageRefs CromwellImageKey
  let nextflow := mapIndex o.imageRefs NextflowImageKey
  ["AGC_BUCKET_NAME=" ++ o.bucketName,
   "CREATE_AGC_BUCKET=" ++ formatBool (!bucketAlreadyExists),
   "ECR_WES_ACCOUNT_ID=" ++ wes.RegistryId,
   "ECR_WES_REGION=" ++ wes.Region,
   "ECR_WES_TAG=" ++ wes.ImageTag,
   "ECR_WES_REPOSITORY=" ++ wes.RepositoryName,
   "ECR_CROMWELL_ACCOUNT_ID=" ++ cromwell.RegistryId,
   "ECR_CROMWELL_REGION=" ++ cromwell.Region,
   "ECR_CROMWELL_TAG=" ++ cromwell.ImageTag,
   "ECR_CROMWELL_REPOSITORY=" ++ cromwell.RepositoryName,
   "ECR_NEXTFLOW_ACCOUNT_ID=" ++ nextflow.RegistryId,
   "ECR_NEXTFLOW_REGION=" ++ nextflow.Region,
   "ECR_NEXTFLOW_TAG=" ++ nextflow.ImageTag,
   "ECR_NEXTFLOW_REPOSITORY=" ++ nextflow.RepositoryName]
  ++ (if o.vpcId ≠ "" then ["VPC_ID=" ++ o.vpcId] else [])

/-- Result of a run of `deployCoreInfrastructure`: the returned error (or
`none` for a nil return), the collaborator calls, and the lines logged
via `log.Error`. -/
structure RunOut where
  result : Option GoError
  calls : List Call
  logged : List String
deriving DecidableEq

/-- The verbose-mode `for event := range progressStream` loop: consume
events until the stream closes or an event carries an error; on an error
event return the previous event's output lines together with the error. -/
def consumeProgress : List ProgressEvent → ProgressEvent → List String × Option GoError
  | [], _ => ([], none)
  | event :: rest, lastEvent =>
    match event.Err with
    | some e => (lastEvent.Outputs, some e)
    | none => consumeProgress rest event

/-- Mirrors `deployCoreInfrastructure` (lines 116-141): resolve the home
directory, join with ` cdkCoreDir`, call `DeployApp`, then either consume
the progress stream verbosely or delegate to `DisplayProgress`.
`DetermineHomeDir` is repo code outside the provided sources, modelled
from the spec as an oracle resolving the user home directory. -/
def deployCoreInfrastructure (w : World) (environmentVars : List String) : RunOut :=
  match w.determineHomeDir with
  | .error e => ⟨some e, [Call.determineHomeDir], []⟩
  | .ok homeDir =>
    let cdkAppPath := filepathJoin homeDir cdkCoreDir
    match w.deployApp cdkAppPath environmentVars with
    | .error e =>
      ⟨some e, [Call.determineHomeDir, Call.deployApp cdkAppPath environmentVars], []⟩
    | .ok progressStream =>
      if w.verbose then
        let r := consumeProgress progressStream ProgressEvent.zero
        ⟨r.2, [Call.determineHomeDir, Call.deployApp cdkAppPath environmentVars], r.1⟩
      else
        ⟨w.displayProgress progressStream "Activating account...",
         [Call.determineHomeDir, Call.deployApp cdkAppPath environmentVars,
          Call.displayProgress "Activating account..."], []⟩

/-- Result of a run of `Execute`: returned error (`none` = nil), call
trace, logged lines, and the options struct as left behind (for the frame
property). -/
structure ExecOut where
  result : Option GoError
  calls : List Call
  logged : List String
  finalOpts : accountActivateOpts
deriving DecidableEq

/-- Mirrors `Execute` (lines 62-106): resolve the bucket name, check
bucket existence, verify every image, assemble the environment list and
deploy. -/
def accountActivateOpts.Execute (o : accountActivateOpts) (w : World) : ExecOut :=
  match resolveOpts w o with
  | (.error e, cs) => ⟨some e, cs, [], o⟩
  | (.ok o1, cs) =>
    match w.bucketExists o1.bucketName with
    | .error e => ⟨some e, cs ++ [Call.bucketExists o1.bucketName], [], o1⟩
    | .ok bucketAlreadyExists =>
      match verifyImages w o1.imageRefs with
      | (some e, vcs) =>
        ⟨some e, cs ++ [Call.bucketExists o1.bucketName] ++ vcs, [], o1⟩
      | (none, vcs) =>
        let environmentVars := buildEnvironmentVars o1 bucketAlreadyExists
        let d := deployCoreInfrastructure w environmentVars
        ⟨d.result, cs ++ [Call.bucketExists o1.bucketName] ++ vcs ++ d.calls,
         d.logged, o1⟩

/-- Mirrors `clierror.New` (the `clierror` package is outside the provided
sources).  Modelled from the spec: wraps the failing command's name, the
user-supplied variables, the causing error and a static remediation
suggestion. -/
structure CliError where
  command : String
  vars : accountActivateVars
  cause : GoError
  suggestion : String
deriving DecidableEq

/-- The fixed remediation hint of `BuildAccountActivateCommand`. -/
def accountActivateHint : String :=
  "check you have valid aws credentials, check the custom bucket and VPC (if any) exist"

/-- Mirrors `newAccountActivateOpts`: builds the options from the flag
variables plus the ambient image table and region (the Go constructor
never fails: it returns a nil error unconditionally). -/
def newAccountActivateOpts (vars : accountActivateVars)
    (imageRefs : List (String × ImageReference)) (region : String) :
    accountActivateOpts :=
  ⟨vars.bucketName, vars.vpcId, imageRefs, region⟩

/-- Mirrors the `RunE` closure of `BuildAccountActivateCommand` (lines
157-167): run `Execute` and wrap any error with the fixed hint. -/
def runAccountActivate (w : World) (vars : accountActivateVars)
    (imageRefs : List (String × ImageReference)) (region : String) :
    Option CliError :=
  match ((newAccountActivateOpts vars imageRefs region).Execute w).result with
  | some e => some ⟨"account activate", vars, e, accountActivateHint⟩
  | none => none

/-- Inversion of a successful `resolveOpts`: either the user supplied a
bucket name (options unchanged) or the name was generated. -/
lemma resolveOpts_ok_inv (w : World) (o o1 : accountActivateOpts) (cs : List Call)
    (h : resolveOpts w o = (.ok o1, cs)) :
    (o.bucketName ≠ "" ∧ o1 = o ∧ cs = []) ∨
    (o.bucketName = "" ∧ cs = [Call.getAccount] ∧ ∃ account,
      w.getAccount = .ok account ∧
      o1 = { o with bucketName := generateBucketName account o.region }) := by
  by_cases hb : o.bucketName = ""
  · cases hga : w.getAccount with
    | error e =>
      simp [resolveOpts, accountActivateOpts.generateDefaultBucket, hb, hga] at h
    | ok account =>
      simp [resolveOpts, accountActivateOpts.generateDefaultBucket, hb, hga] at h
      exact Or.inr ⟨hb, h.2.symm, account, rfl, h.1.symm⟩
  · simp [resolveOpts, hb] at h
    exact Or.inl ⟨hb, h.1.symm, h.2⟩

/-- A failing `resolveOpts` comes from a failing identity lookup. -/
lemma resolveOpts_error_inv (w : World) (o : accountActivateOpts) (e : GoError)
    (cs : List Call) (h : resolveOpts w o = (.error e, cs)) :
    o.bucketName = "" ∧ w.getAccount = .error e ∧ cs = [Call.getAccount] := by
  by_cases hb : o.bucketName = ""
  · cases hga : w.getAccount with
    | error e2 =>
      simp [resolveOpts, accountActivateOpts.generateDefaultBucket, hb, hga] at h
      exact ⟨hb, congrArg Except.error h.1, h.2.symm⟩
    | ok account =>
      simp [resolveOpts, accountActivateOpts.generateDefaultBucket, hb, hga] at h
  · simp [resolveOpts, hb] at h

/-- `resolveOpts` changes at most the bucket name. -/
lemma resolveOpts_ok_frame (w : World) (o o1 : accountActivateOpts) (cs : List Call)
    (h : resolveOpts w o = (.ok o1, cs)) :
    o1.vpcId = o.vpcId ∧ o1.imageRefs = o.imageRefs ∧ o1.region = o.region := by
  rcases resolveOpts_ok_inv w o o1 cs h with ⟨_, h1, _⟩ | ⟨_, _, account, _, h1⟩ <;>
    subst h1 <;> simp

/-- Every call recorded by the verification loop is a verification call. -/
lemma verifyImages_calls_shape (w : World) (l : List (String × ImageReference)) :
    ∀ c ∈ (verifyImages w l).2, ∃ ref, c = Call.verifyImageExists ref := by
  induction l with
  | nil => simp [verifyImages]
  | cons q rest ih =>
    obtain ⟨k, ref⟩ := q
    cases hv : w.verifyImageExists ref with
    | error e => simp [verifyImages, hv]
    | ok u =>
      simp only [verifyImages, hv, List.mem_cons]
      rintro c (rfl | hc)
      · exact ⟨ref, rfl⟩
      · exact ih c hc

/-- When the verification loop succeeds, every image was verified
successfully and appears in the trace. -/
lemma verifyImages_none_inv (w : World) (l : List (String × ImageReference))
    (h : (verifyImages w l).1 = none) :
    ∀ q ∈ l, w.verifyImageExists q.2 = .ok () ∧
      Call.verifyImageExists q.2 ∈ (verifyImages w l).2 := by
  induction l with
  | nil => simp
  | cons q rest ih =>
    obtain ⟨k, ref⟩ := q
    cases hv : w.verifyImageExists ref with
    | error e => simp [verifyImages, hv] at h
    | ok u =>
      cases u
      simp only [verifyImages, hv] at h ⊢
      intro x hx
      rcases List.mem_cons.mp hx with hx1 | hx2
      · subst hx1
        exact ⟨hv, List.mem_cons_self _ _⟩
      · exact ⟨(ih h x hx2).1, List.mem_cons_of_mem _ (ih h x hx2).2⟩

/-- The verification loop stops at the first failing image. -/
lemma verifyImages_first_err (w : World) (pre : List (String × ImageReference))
    (k : String) (ref : ImageReference) (suf : List (String × ImageReference))
    (e : GoError)
    (hpre : ∀ q ∈ pre, w.verifyImageExists q.2 = .ok ())
    (he : w.verifyImageExists ref = .error e) :
    verifyImages w (pre ++ (k, ref) :: suf) =
      (some e, pre.map (fun q => Call.verifyImageExists q.2)
        ++ [Call.verifyImageExists ref]) := by
  induction pre with
  | nil => simp [verifyImages, he]
  | cons q qs ih =>
    have hq : w.verifyImageExists q.2 = .ok () := hpre q (List.mem_cons_self _ _)
    have ih2 := ih (fun x hx => hpre x (List.mem_cons_of_mem _ hx))
    obtain ⟨k1, ref1⟩ := q
    simp [verifyImages, hq, ih2]

/-- Inversion of a `DeployApp` call in the trace of
`deployCoreInfrastructure`: the environment list is the one passed in and
the path is the joined home path. -/
lemma deployCore_deployApp_mem (w : World) (ev : List String) (p : String)
    (env : List String)
    (h : Call.deployApp p env ∈ (deployCoreInfrastructure w ev).calls) :
    env = ev ∧ ∃ home, w.determineHomeDir = .ok home ∧
      p = filepathJoin home cdkCoreDir := by
  cases hh : w.determineHomeDir with
  | error e => simp [deployCoreInfrastructure, hh] at h
  | ok homeDir =>
    cases hd : w.deployApp (filepathJoin homeDir cdkCoreDir) ev with
    | error e =>
      simp [deployCoreInfrastructure, hh, hd] at h
      exact ⟨h.2, homeDir, rfl, h.1⟩
    | ok stream =>
      by_cases hv : w.verbose <;>
        simp [deployCoreInfrastructure, hh, hd, hv] at h <;>
        exact ⟨h.2, homeDir, rfl, h.1⟩


/-- Equation for `Execute` when bucket-name resolution fails. -/
lemma execute_eq_resolve_error (w : World) (o : accountActivateOpts) (e : GoError)
    (cs : List Call) (h : resolveOpts w o = (.error e, cs)) :
    o.Execute w = ⟨some e, cs, [], o⟩ := by
  unfold accountActivateOpts.Execute
  rw [h]

/-- Equation for `Execute` when the bucket-existence check fails. -/
lemma execute_eq_bucket_error (w : World) (o o1 : accountActivateOpts)
    (cs : List Call) (e : GoError) (h1 : resolveOpts w o = (.ok o1, cs))
    (h2 : w.bucketExists o1.bucketName = .error e) :
    o.Execute w = ⟨some e, cs ++ [Call.bucketExists o1.bucketName], [], o1⟩ := by
  unfold accountActivateOpts.Execute
  rw [h1]
  dsimp only
  rw [h2]

/-- Equation for `Execute` when an image verification fails. -/
lemma execute_eq_verify_error (w : World) (o o1 : accountActivateOpts)
    (cs : List Call) (b : Bool) (e : GoError) (vcs : List Call)
    (h1 : resolveOpts w o = (.ok o1, cs))
    (h2 : w.bucketExists o1.bucketName = .ok b)
    (h3 : verifyImages w o1.imageRefs = (some e, vcs)) :
    o.Execute w =
      ⟨some e, cs ++ [Call.bucketExists o1.bucketName] ++ vcs, [], o1⟩ := by
  unfold accountActivateOpts.Execute
  rw [h1]
  dsimp only
  rw [h2]
  dsimp only
  rw [h3]

/-- Equation for `Execute` on the full success path up to deployment. -/
lemma execute_eq_success (w : World) (o o1 : accountActivateOpts)
    (cs : List Call) (b : Bool) (vcs : List Call)
    (h1 : resolveOpts w o = (.ok o1, cs))
    (h2 : w.bucketExists o1.bucketName = .ok b)
    (h3 : verifyImages w o1.imageRefs = (none, vcs)) :
    o.Execute w =
      ⟨(deployCoreInfrastructure w (buildEnvironmentVars o1 b)).result,
       cs ++ [Call.bucketExists o1.bucketName] ++ vcs
         ++ (deployCoreInfrastructure w (buildEnvironmentVars o1 b)).calls,
       (deployCoreInfrastructure w (buildEnvironmentVars o1 b)).logged, o1⟩ := by
  unfold accountActivateOpts.Execute
  rw [h1]
  dsimp only
  rw [h2]
  dsimp only
  rw [h3]

/-- A `DeployApp` call in the trace of `Execute` implies the full success
path: bucket resolution succeeded, the bucket check succeeded, every image
verification succeeded, and the call carries the assembled environment
list and the joined core-app path. -/
lemma execute_deployApp_inv (w : World) (o : accountActivateOpts) (p : String)
    (env : List String) (h : Call.deployApp p env ∈ (o.Execute w).calls) :
    ∃ o1 cs b, resolveOpts w o = (.ok o1, cs) ∧
      w.bucketExists o1.bucketName = .ok b ∧
      (verifyImages w o1.imageRefs).1 = none ∧
      env = buildEnvironmentVars o1 b ∧
      (∃ home, w.determineHomeDir = .ok home ∧ p = filepathJoin home cdkCoreDir) ∧
      (o.Execute w).finalOpts = o1 ∧
      Call.bucketExists o1.bucketName ∈ (o.Execute w).calls := by
  rcases hro : resolveOpts w o with ⟨res, cs⟩
  cases res with
  | error e =>
    obtain ⟨-, -, hcs⟩ := resolveOpts_error_inv w o e cs hro
    rw [execute_eq_resolve_error w o e cs hro, hcs] at h
    simp at h
  | ok o1 =>
    have hcs : ∀ c ∈ cs, c = Call.getAccount := by
      rcases resolveOpts_ok_inv w o o1 cs hro with ⟨-, -, h1⟩ | ⟨-, h1, -⟩ <;>
        subst h1 <;> simp
    cases hbe : w.bucketExists o1.bucketName with
    | error e =>
      rw [execute_eq_bucket_error w o o1 cs e hro hbe] at h
      simp only [List.mem_append, List.mem_singleton] at h
      rcases h with h | h
      · exact absurd (hcs _ h) (by simp)
      · exact absurd h (by simp)
    | ok b =>
      rcases hvi : verifyImages w o1.imageRefs with ⟨vres, vcs⟩
      have hvshape := verifyImages_calls_shape w o1.imageRefs
      rw [hvi] at hvshape
      cases vres with
      | some e =>
        rw [execute_eq_verify_error w o o1 cs b e vcs hro hbe hvi] at h
        simp only [List.mem_append, List.mem_singleton] at h
        rcases h with (h | h) | h
        · exact absurd (hcs _ h) (by simp)
        · exact absurd h (by simp)
        · obtain ⟨ref, hc⟩ := hvshape _ h
          simp at hc
      | none =>
        have hex := execute_eq_success w o o1 cs b vcs hro hbe hvi
        rw [hex] at h
        simp only [List.mem_append, List.mem_singleton] at h
        have hd : Call.deployApp p env ∈
            (deployCoreInfrastructure w (buildEnvironmentVars o1 b)).calls := by
          rcases h with ((h | h) | h) | h
          · exact absurd (hcs _ h) (by simp)
          · exact absurd h (by simp)
          · obtain ⟨ref, hc⟩ := hvshape _ h
            simp at hc
          · exact h
        obtain ⟨henv, home, hh, hp⟩ :=
          deployCore_deployApp_mem w (buildEnvironmentVars o1 b) p env hd
        refine ⟨o1, cs, b, rfl, hbe, by rw [hvi], henv, ⟨home, hh, hp⟩,
          by rw [hex], ?_⟩
        rw [hex]
        simp

/-- Every call recorded by `deployCoreInfrastructure` is a home-directory
lookup, a deployment call, or a progress display. -/
lemma deployCore_calls_shape (w : World) (ev : List String) :
    ∀ c ∈ (deployCoreInfrastructure w ev).calls,
      c = Call.determineHomeDir ∨ (∃ q env2, c = Call.deployApp q env2) ∨
      (∃ s, c = Call.displayProgress s) := by
  intro c hc
  cases hh : w.determineHomeDir with
  | error e =>
    simp [deployCoreInfrastructure, hh] at hc
    exact Or.inl hc
  | ok home =>
    cases hd : w.deployApp (filepathJoin home cdkCoreDir) ev with
    | error e =>
      simp [deployCoreInfrastructure, hh, hd] at hc
      rcases hc with rfl | rfl
      · exact Or.inl rfl
      · exact Or.inr (Or.inl ⟨_, _, rfl⟩)
    | ok stream =>
      by_cases hv : w.verbose <;>
        simp [deployCoreInfrastructure, hh, hd, hv] at hc
      · rcases hc with rfl | rfl
        · exact Or.inl rfl
        · exact Or.inr (Or.inl ⟨_, _, rfl⟩)
      · rcases hc with rfl | rfl | rfl
        · exact Or.inl rfl
        · exact Or.inr (Or.inl ⟨_, _, rfl⟩)
        · exact Or.inr (Or.inr ⟨_, rfl⟩)

/-- A `BucketExists` call in the trace of `Execute` always carries the
resolved bucket name. -/
lemma execute_bucketExists_name (w : World) (o : accountActivateOpts)
    (name : String) (h : Call.bucketExists name ∈ (o.Execute w).calls) :
    ∃ o1 cs, resolveOpts w o = (.ok o1, cs) ∧ name = o1.bucketName := by
  rcases hro : resolveOpts w o with ⟨res, cs⟩
  cases res with
  | error e =>
    obtain ⟨-, -, hcs⟩ := resolveOpts_error_inv w o e cs hro
    rw [execute_eq_resolve_error w o e cs hro, hcs] at h
    simp at h
  | ok o1 =>
    refine ⟨o1, cs, rfl, ?_⟩
    have hcs : ∀ c ∈ cs, c = Call.getAccount := by
      rcases resolveOpts_ok_inv w o o1 cs hro with ⟨-, -, h1⟩ | ⟨-, h1, -⟩ <;>
        subst h1 <;> simp
    cases hbe : w.bucketExists o1.bucketName with
    | error e =>
      rw [execute_eq_bucket_error w o o1 cs e hro hbe] at h
      simp only [List.mem_append, List.mem_singleton] at h
      rcases h with h | h
      · exact absurd (hcs _ h) (by simp)
      · exact (Call.bucketExists.inj h)
    | ok b =>
      rcases hvi : verifyImages w o1.imageRefs with ⟨vres, vcs⟩
      have hvshape := verifyImages_calls_shape w o1.imageRefs
      rw [hvi] at hvshape
      cases vres with
      | some e =>
        rw [execute_eq_verify_error w o o1 cs b e vcs hro hbe hvi] at h
        simp only [List.mem_append, List.mem_singleton] at h
        rcases h with (h | h) | h
        · exact absurd (hcs _ h) (by simp)
        · exact (Call.bucketExists.inj h)
        · obtain ⟨ref, hc⟩ := hvshape _ h
          simp at hc
      | none =>
        rw [execute_eq_success w o o1 cs b vcs hro hbe hvi] at h
        simp only [List.mem_append, List.mem_singleton] at h
        rcases h with ((h | h) | h) | h
        · exact absurd (hcs _ h) (by simp)
        · exact (Call.bucketExists.inj h)
        · obtain ⟨ref, hc⟩ := hvshape _ h
          simp at hc
        · rcases deployCore_calls_shape w (buildEnvironmentVars o1 b) _ h with
            hc | ⟨q, env2, hc⟩ | ⟨s, hc⟩ <;> simp at hc

/-- Concrete image reference used by the witnesses. -/
def sampleImage : ImageReference := ⟨"555555555555", "us-east-1", "v1", "agc-wes"⟩

/-- Concrete image table used by the witnesses. -/
def sampleRefs : List (String × ImageReference) :=
  [(WesImageKey, sampleImage), (CromwellImageKey, sampleImage),
   (NextflowImageKey, sampleImage)]

/-- Concrete options with a user-supplied bucket and VPC. -/
def sampleOpts : accountActivateOpts := ⟨"my-bucket", "vpc-123", sampleRefs, "us-east-1"⟩

/-- Concrete options with no user-supplied bucket and no VPC. -/
def sampleOptsEmpty : accountActivateOpts := ⟨"", "", sampleRefs, "us-east-1"⟩

/-- Concrete error value used by the witnesses. -/
def sampleErr : GoError := ⟨"boom"⟩

/-- A world in which every collaborator succeeds (bucket absent, verbose
logging, empty progress stream). -/
def sampleWorld : World :=
  ⟨.ok "123456789012", fun _ => .ok false, fun _ => .ok (), .ok "/home/user",
   fun _ _ => .ok [], fun _ _ => none, true⟩

/-- C1: for every run of `Execute` that reaches the deployment call, the
assembled environment list has exactly 14 entries when the VPC id is empty
and exactly 15 when it is non-empty, in the fixed documented order with
exactly the documented keys, `VPC_ID` appended last only when a VPC id was
supplied. -/
theorem execute_env_list_shape (w : World) (o : accountActivateOpts) (p : String)
    (env : List String) (h : Call.deployApp p env ∈ (o.Execute w).calls) :
    env.length = (if o.vpcId = "" then 14 else 15) ∧
    ∃ bn cb wa wr wt wp ca cr ct cp na nr nt np : String,
      env =
        ["AGC_BUCKET_NAME=" ++ bn, "CREATE_AGC_BUCKET=" ++ cb,
         "ECR_WES_ACCOUNT_ID=" ++ wa, "ECR_WES_REGION=" ++ wr,
         "ECR_WES_TAG=" ++ wt, "ECR_WES_REPOSITORY=" ++ wp,
         "ECR_CROMWELL_ACCOUNT_ID=" ++ ca, "ECR_CROMWELL_REGION=" ++ cr,
         "ECR_CROMWELL_TAG=" ++ ct, "ECR_CROMWELL_REPOSITORY=" ++ cp,
         "ECR_NEXTFLOW_ACCOUNT_ID=" ++ na, "ECR_NEXTFLOW_REGION=" ++ nr,
         "ECR_NEXTFLOW_TAG=" ++ nt, "ECR_NEXTFLOW_REPOSITORY=" ++ np] ++
        (if o.vpcId = "" then [] else ["VPC_ID=" ++ o.vpcId]) := by
  obtain ⟨o1, cs, b, hro, hbe, hv, henv, -, -, -⟩ :=
    execute_deployApp_inv w o p env h
  have hvpc : o1.vpcId = o.vpcId := (resolveOpts_ok_frame w o o1 cs hro).1
  subst henv
  constructor
  · by_cases hve : o.vpcId = "" <;>
      simp [buildEnvironmentVars, hvpc, hve]
  · refine ⟨o1.bucketName, formatBool (!b),
      (mapIndex o1.imageRefs WesImageKey).RegistryId,
      (mapIndex o1.imageRefs WesImageKey).Region,
      (mapIndex o1.imageRefs WesImageKey).ImageTag,
      (mapIndex o1.imageRefs WesImageKey).RepositoryName,
      (mapIndex o1.imageRefs CromwellImageKey).RegistryId,
      (mapIndex o1.imageRefs CromwellImageKey).Region,
      (mapIndex o1.imageRefs CromwellImageKey).ImageTag,
      (mapIndex o1.imageRefs CromwellImageKey).RepositoryName,
      (mapIndex o1.imageRefs NextflowImageKey).RegistryId,
      (mapIndex o1.imageRefs NextflowImageKey).Region,
      (mapIndex o1.imageRefs NextflowImageKey).ImageTag,
      (mapIndex o1.imageRefs NextflowImageKey).RepositoryName, ?_⟩
    by_cases hve : o.vpcId = "" <;>
      simp [buildEnvironmentVars, hvpc, hve]

/-- Witness for C1: concrete successful run with a VPC id supplied. -/
theorem execute_env_list_shape_witness :
    Call.deployApp (filepathJoin "/home/user" cdkCoreDir)
        (buildEnvironmentVars sampleOpts false) ∈
      (sampleOpts.Execute sampleWorld).calls ∧
    ((buildEnvironmentVars sampleOpts false).length =
        (if sampleOpts.vpcId = "" then 14 else 15) ∧
      ∃ bn cb wa wr wt wp ca cr ct cp na nr nt np : String,
        buildEnvironmentVars sampleOpts false =
          ["AGC_BUCKET_NAME=" ++ bn, "CREATE_AGC_BUCKET=" ++ cb,
           "ECR_WES_ACCOUNT_ID=" ++ wa, "ECR_WES_REGION=" ++ wr,
           "ECR_WES_TAG=" ++ wt, "ECR_WES_REPOSITORY=" ++ wp,
           "ECR_CROMWELL_ACCOUNT_ID=" ++ ca, "ECR_CROMWELL_REGION=" ++ cr,
           "ECR_CROMWELL_TAG=" ++ ct, "ECR_CROMWELL_REPOSITORY=" ++ cp,
           "ECR_NEXTFLOW_ACCOUNT_ID=" ++ na, "ECR_NEXTFLOW_REGION=" ++ nr,
           "ECR_NEXTFLOW_TAG=" ++ nt, "ECR_NEXTFLOW_REPOSITORY=" ++ np] ++
          (if sampleOpts.vpcId = "" then [] else ["VPC_ID=" ++ sampleOpts.vpcId])) :=
  ⟨by decide, execute_env_list_shape sampleWorld sampleOpts
    (filepathJoin "/home/user" cdkCoreDir)
    (buildEnvironmentVars sampleOpts false) (by decide)⟩

/-- `Execute` leaves behind the options produced by bucket-name
resolution whenever resolution succeeded. -/
lemma execute_finalOpts_of_ok (w : World) (o o1 : accountActivateOpts)
    (cs : List Call) (h : resolveOpts w o = (.ok o1, cs)) :
    (o.Execute w).finalOpts = o1 := by
  cases hbe : w.bucketExists o1.bucketName with
  | error e => rw [execute_eq_bucket_error w o o1 cs e h hbe]
  | ok b =>
    rcases hvi : verifyImages w o1.imageRefs with ⟨vres, vcs⟩
    cases vres with
    | some e => rw [execute_eq_verify_error w o o1 cs b e vcs h hbe hvi]
    | none => rw [execute_eq_success w o o1 cs b vcs h hbe hvi]

/-- The generated name spelled out: prefix, account and region joined by
dashes. -/
lemma generateBucketName_eq (a r : String) :
    generateBucketName a r = "agc-" ++ a ++ "-" ++ r := by
  unfold generateBucketName bucketPrefix
  have h : ("agc" ++ "-" : String) = "agc-" := by decide
  rw [h]

/-- C2: the `CREATE_AGC_BUCKET` entry of the assembled environment list is
"true" exactly when `BucketExists` returned `false` for the resolved
bucket name, and "false" exactly when it returned `true`. -/
theorem execute_create_bucket_flag (w : World) (o : accountActivateOpts)
    (p name : String) (env : List String) (b : Bool)
    (hdep : Call.deployApp p env ∈ (o.Execute w).calls)
    (hname : Call.bucketExists name ∈ (o.Execute w).calls)
    (hb : w.bucketExists name = .ok b) :
    env.get? 1 = some ("CREATE_AGC_BUCKET=" ++ (if b then "false" else "true")) := by
  obtain ⟨o1, cs, b2, hro, hbe, -, henv, -, -, -⟩ :=
    execute_deployApp_inv w o p env hdep
  obtain ⟨o1', cs', hro', hn⟩ := execute_bucketExists_name w o name hname
  rw [hro] at hro'
  have ho1 : o1' = o1 := (Except.ok.inj (congrArg Prod.fst hro')).symm
  rw [hn, ho1] at hb
  rw [hb] at hbe
  have hb2 : b = b2 := Except.ok.inj hbe
  subst hb2 henv
  cases b <;> simp [buildEnvironmentVars, formatBool]

/-- Witness for C2: concrete run where the bucket does not exist, so the
flag entry reads "true". -/
theorem execute_create_bucket_flag_witness :
    Call.deployApp (filepathJoin "/home/user" cdkCoreDir)
        (buildEnvironmentVars sampleOpts false) ∈
      (sampleOpts.Execute sampleWorld).calls ∧
    Call.bucketExists "my-bucket" ∈ (sampleOpts.Execute sampleWorld).calls ∧
    sampleWorld.bucketExists "my-bucket" = .ok false ∧
    (buildEnvironmentVars sampleOpts false).get? 1 =
      some ("CREATE_AGC_BUCKET=" ++ (if false then "false" else "true")) :=
  ⟨by decide, by decide, rfl,
   execute_create_bucket_flag sampleWorld sampleOpts
     (filepathJoin "/home/user" cdkCoreDir) "my-bucket"
     (buildEnvironmentVars sampleOpts false) false
     (by decide) (by decide) rfl⟩

/-- C3: with a non-empty bucket flag, the resolved bucket name (both the
one checked against storage and the one left in the options) is the flag
value verbatim, for every identity/region; with an empty flag it is the
deterministic template applied to the looked-up account id and the
region. -/
theorem execute_bucket_resolution (w : World) (o : accountActivateOpts) :
    (o.bucketName ≠ "" →
      (o.Execute w).finalOpts.bucketName = o.bucketName ∧
      ∀ name, Call.bucketExists name ∈ (o.Execute w).calls →
        name = o.bucketName) ∧
    (∀ account, o.bucketName = "" → w.getAccount = .ok account →
      (o.Execute w).finalOpts.bucketName = "agc-" ++ account ++ "-" ++ o.region ∧
      ∀ name, Call.bucketExists name ∈ (o.Execute w).calls →
        name = "agc-" ++ account ++ "-" ++ o.region) := by
  constructor
  · intro hb
    have hro : resolveOpts w o = (.ok o, []) := by simp [resolveOpts, hb]
    refine ⟨by rw [execute_finalOpts_of_ok w o o [] hro], ?_⟩
    intro name hname
    obtain ⟨o1', cs', hro', hn⟩ := execute_bucketExists_name w o name hname
    rw [hro] at hro'
    have ho1 : o1' = o := (Except.ok.inj (congrArg Prod.fst hro')).symm
    rw [hn, ho1]
  · intro account hb hga
    have hro : resolveOpts w o =
        (.ok { o with bucketName := generateBucketName account o.region },
         [Call.getAccount]) := by
      simp [resolveOpts, accountActivateOpts.generateDefaultBucket, hb, hga]
    refine ⟨?_, ?_⟩
    · rw [execute_finalOpts_of_ok w o _ _ hro]
      exact generateBucketName_eq account o.region
    · intro name hname
      obtain ⟨o1', cs', hro', hn⟩ := execute_bucketExists_name w o name hname
      rw [hro] at hro'
      have ho1 : o1' = { o with bucketName := generateBucketName account o.region } :=
        (Except.ok.inj (congrArg Prod.fst hro')).symm
      rw [hn, ho1]
      exact generateBucketName_eq account o.region

/-- Witness for C3: both branches at concrete inputs (supplied bucket and
generated bucket). -/
theorem execute_bucket_resolution_witness :
    (sampleOpts.bucketName ≠ "" ∧
      ((sampleOpts.Execute sampleWorld).finalOpts.bucketName =
          sampleOpts.bucketName ∧
        ∀ name, Call.bucketExists name ∈ (sampleOpts.Execute sampleWorld).calls →
          name = sampleOpts.bucketName)) ∧
    (sampleOptsEmpty.bucketName = "" ∧
      sampleWorld.getAccount = .ok "123456789012" ∧
      ((sampleOptsEmpty.Execute sampleWorld).finalOpts.bucketName =
          "agc-" ++ "123456789012" ++ "-" ++ sampleOptsEmpty.region ∧
        ∀ name,
          Call.bucketExists name ∈ (sampleOptsEmpty.Execute sampleWorld).calls →
            name = "agc-" ++ "123456789012" ++ "-" ++ sampleOptsEmpty.region)) :=
  ⟨⟨by decide, (execute_bucket_resolution sampleWorld sampleOpts).1 (by decide)⟩,
   ⟨by decide, rfl,
    (execute_bucket_resolution sampleWorld sampleOptsEmpty).2 "123456789012"
      (by decide) rfl⟩⟩

/-- C9: `Execute` mutates at most the bucket-name field of the options:
the VPC id, image map and region always come out unchanged, and with a
non-empty initial bucket name the whole options value is unchanged. -/
theorem execute_frame (w : World) (o : accountActivateOpts) :
    (o.Execute w).finalOpts.vpcId = o.vpcId ∧
    (o.Execute w).finalOpts.imageRefs = o.imageRefs ∧
    (o.Execute w).finalOpts.region = o.region ∧
    (o.bucketName ≠ "" → (o.Execute w).finalOpts = o) := by
  rcases hro : resolveOpts w o with ⟨res, cs⟩
  cases res with
  | error e =>
    rw [execute_eq_resolve_error w o e cs hro]
    exact ⟨rfl, rfl, rfl, fun _ => rfl⟩
  | ok o1 =>
    have hf := execute_finalOpts_of_ok w o o1 cs hro
    rw [hf]
    obtain ⟨h1, h2, h3⟩ := resolveOpts_ok_frame w o o1 cs hro
    refine ⟨h1, h2, h3, fun hb => ?_⟩
    rcases resolveOpts_ok_inv w o o1 cs hro with ⟨-, h4, -⟩ | ⟨hb2, -, -⟩
    · exact h4
    · exact absurd hb2 hb

/-- Witness for C9: with a user-supplied bucket name the options survive a
full run unchanged. -/
theorem execute_frame_witness :
    sampleOpts.bucketName ≠ "" ∧
    (sampleOpts.Execute sampleWorld).finalOpts = sampleOpts :=
  ⟨by decide, (execute_frame sampleWorld sampleOpts).2.2.2 (by decide)⟩

/-- A world whose identity lookup fails. -/
def badIdWorld : World :=
  ⟨.error sampleErr, fun _ => .ok false, fun _ => .ok (), .ok "/home/user",
   fun _ _ => .ok [], fun _ _ => none, true⟩

/-- C4: the first collaborator error is returned at once and no later step
runs: an identity error stops after the identity call, a bucket-check
error stops right after the bucket call, and the first failing image
verification stops the loop with no deployment and no progress display. -/
theorem execute_short_circuit (w : World) (o : accountActivateOpts) :
    (∀ e, o.bucketName = "" → w.getAccount = .error e →
      (o.Execute w).result = some e ∧
      (o.Execute w).calls = [Call.getAccount]) ∧
    (∀ o1 cs e, resolveOpts w o = (.ok o1, cs) →
      w.bucketExists o1.bucketName = .error e →
      (o.Execute w).result = some e ∧
      (o.Execute w).calls = cs ++ [Call.bucketExists o1.bucketName]) ∧
    (∀ o1 cs b pre k ref suf e, resolveOpts w o = (.ok o1, cs) →
      w.bucketExists o1.bucketName = .ok b →
      o1.imageRefs = pre ++ (k, ref) :: suf →
      (∀ q ∈ pre, w.verifyImageExists q.2 = .ok ()) →
      w.verifyImageExists ref = .error e →
      (o.Execute w).result = some e ∧
      (o.Execute w).calls = cs ++ [Call.bucketExists o1.bucketName] ++
        ((pre.map fun q => Call.verifyImageExists q.2) ++
          [Call.verifyImageExists ref]) ∧
      (∀ q env, Call.deployApp q env ∉ (o.Execute w).calls) ∧
      (∀ s, Call.displayProgress s ∉ (o.Execute w).calls)) := by
  refine ⟨?_, ?_, ?_⟩
  · intro e hb hga
    have hro : resolveOpts w o = (.error e, [Call.getAccount]) := by
      simp [resolveOpts, accountActivateOpts.generateDefaultBucket, hb, hga]
    rw [execute_eq_resolve_error w o e [Call.getAccount] hro]
    exact ⟨rfl, rfl⟩
  · intro o1 cs e h1 h2
    rw [execute_eq_bucket_error w o o1 cs e h1 h2]
    exact ⟨rfl, rfl⟩
  · intro o1 cs b pre k ref suf e h1 h2 himg hpre herr
    have hvi : verifyImages w o1.imageRefs =
        (some e, (pre.map fun q => Call.verifyImageExists q.2) ++
          [Call.verifyImageExists ref]) := by
      rw [himg]
      exact verifyImages_first_err w pre k ref suf e hpre herr
    have hcs : ∀ c ∈ cs, c = Call.getAccount := by
      rcases resolveOpts_ok_inv w o o1 cs h1 with ⟨-, -, h4⟩ | ⟨-, h4, -⟩ <;>
        subst h4 <;> simp
    rw [execute_eq_verify_error w o o1 cs b e _ h1 h2 hvi]
    refine ⟨rfl, rfl, ?_, ?_⟩
    · intro q env hmem
      simp only [List.mem_append, List.mem_singleton, List.mem_map] at hmem
      rcases hmem with (hmem | hmem) | ⟨x, -, hx⟩ | hmem
      · exact absurd (hcs _ hmem) (by simp)
      · simp at hmem
      · simp at hx
      · simp at hmem
    · intro s hmem
      simp only [List.mem_append, List.mem_singleton, List.mem_map] at hmem
      rcases hmem with (hmem | hmem) | ⟨x, -, hx⟩ | hmem
      · exact absurd (hcs _ hmem) (by simp)
      · simp at hmem
      · simp at hx
      · simp at hmem

/-- Witness for C4: a failing identity lookup stops the run after one
call. -/
theorem execute_short_circuit_witness :
    sampleOptsEmpty.bucketName = "" ∧
    badIdWorld.getAccount = .error sampleErr ∧
    ((sampleOptsEmpty.Execute badIdWorld).result = some sampleErr ∧
     (sampleOptsEmpty.Execute badIdWorld).calls = [Call.getAccount]) :=
  ⟨by decide, rfl,
   (execute_short_circuit badIdWorld sampleOptsEmpty).1 sampleErr (by decide) rfl⟩

/-- C5: a deployment call only occurs in runs where every image of the map
was verified successfully, each with its own registry call in the trace. -/
theorem execute_verification_all_or_nothing (w : World) (o : accountActivateOpts)
    (p : String) (env : List String)
    (h : Call.deployApp p env ∈ (o.Execute w).calls) :
    ∀ q ∈ o.imageRefs, w.verifyImageExists q.2 = .ok () ∧
      Call.verifyImageExists q.2 ∈ (o.Execute w).calls := by
  obtain ⟨o1, cs, b, hro, hbe, hv, -, -, -, -⟩ := execute_deployApp_inv w o p env h
  have himg : o1.imageRefs = o.imageRefs := (resolveOpts_ok_frame w o o1 cs hro).2.1
  have hall := verifyImages_none_inv w o1.imageRefs hv
  intro q hq
  rw [← himg] at hq
  refine ⟨(hall q hq).1, ?_⟩
  rcases hvi : verifyImages w o1.imageRefs with ⟨vres, vcs⟩
  have hvres : vres = none := by rw [hvi] at hv; exact hv
  subst hvres
  rw [execute_eq_success w o o1 cs b vcs hro hbe hvi]
  have hmem := (hall q hq).2
  rw [hvi] at hmem
  simp only [List.mem_append]
  exact Or.inl (Or.inr hmem)

/-- Witness for C5: in a concrete full run all three images were checked
before deployment. -/
theorem execute_verification_all_or_nothing_witness :
    Call.deployApp (filepathJoin "/home/user" cdkCoreDir)
        (buildEnvironmentVars sampleOpts false) ∈
      (sampleOpts.Execute sampleWorld).calls ∧
    ∀ q ∈ sampleOpts.imageRefs, sampleWorld.verifyImageExists q.2 = .ok () ∧
      Call.verifyImageExists q.2 ∈ (sampleOpts.Execute sampleWorld).calls :=
  ⟨by decide,
   execute_verification_all_or_nothing sampleWorld sampleOpts
     (filepathJoin "/home/user" cdkCoreDir)
     (buildEnvironmentVars sampleOpts false) (by decide)⟩

/-- Decidable test for a deployment call, used to count them. -/
def isDeployApp : Call → Bool
  | Call.deployApp _ _ => true
  | _ => false

/-- `deployCoreInfrastructure` performs exactly one `DeployApp` call when
the home directory resolves, none when it does not. -/
lemma deployCore_filter (w : World) (ev : List String) :
    (∀ e, w.determineHomeDir = .error e →
      (deployCoreInfrastructure w ev).result = some e ∧
      (deployCoreInfrastructure w ev).calls.filter isDeployApp = []) ∧
    (∀ home, w.determineHomeDir = .ok home →
      (deployCoreInfrastructure w ev).calls.filter isDeployApp =
        [Call.deployApp (filepathJoin home cdkCoreDir) ev]) := by
  constructor
  · intro e he
    simp [deployCoreInfrastructure, he, isDeployApp]
  · intro home hh
    cases hd : w.deployApp (filepathJoin home cdkCoreDir) ev with
    | error e2 => simp [deployCoreInfrastructure, hh, hd, isDeployApp]
    | ok stream =>
      by_cases hv : w.verbose <;>
        simp [deployCoreInfrastructure, hh, hd, hv, isDeployApp]

/-- C6: in every run that reaches the deployment step, `DeployApp` is
called exactly once, with the home directory joined with the fixed
subpath and the assembled environment list; if the home directory cannot
be determined, that error is returned and no deployment call is made. -/
theorem execute_deploy_exactly_once (w : World) (o o1 : accountActivateOpts)
    (cs : List Call) (b : Bool) (vcs : List Call)
    (h1 : resolveOpts w o = (.ok o1, cs))
    (h2 : w.bucketExists o1.bucketName = .ok b)
    (h3 : verifyImages w o1.imageRefs = (none, vcs)) :
    (∀ e, w.determineHomeDir = .error e →
      (o.Execute w).result = some e ∧
      (o.Execute w).calls.filter isDeployApp = []) ∧
    (∀ home, w.determineHomeDir = .ok home →
      (o.Execute w).calls.filter isDeployApp =
        [Call.deployApp (filepathJoin home cdkCoreDir)
          (buildEnvironmentVars o1 b)]) := by
  have hcs : ∀ c ∈ cs, c = Call.getAccount := by
    rcases resolveOpts_ok_inv w o o1 cs h1 with ⟨-, -, h4⟩ | ⟨-, h4, -⟩ <;>
      subst h4 <;> simp
  have hvshape := verifyImages_calls_shape w o1.imageRefs
  rw [h3] at hvshape
  have hfcs : cs.filter isDeployApp = [] := by
    rw [List.filter_eq_nil_iff]
    intro c hc
    rw [hcs c hc]
    simp [isDeployApp]
  have hfv : vcs.filter isDeployApp = [] := by
    rw [List.filter_eq_nil_iff]
    intro c hc
    obtain ⟨ref, hr⟩ := hvshape c hc
    rw [hr]
    simp [isDeployApp]
  rw [execute_eq_success w o o1 cs b vcs h1 h2 h3]
  constructor
  · intro e he
    obtain ⟨hr, hf⟩ := (deployCore_filter w (buildEnvironmentVars o1 b)).1 e he
    refine ⟨hr, ?_⟩
    simp only [List.filter_append, hfcs, hfv, hf]
    simp [isDeployApp]
  · intro home hh
    have hf := (deployCore_filter w (buildEnvironmentVars o1 b)).2 home hh
    simp only [List.filter_append, hfcs, hfv, hf]
    simp [isDeployApp]

/-- Witness for C6: concrete full run deploying exactly once with the
joined path and the assembled list. -/
theorem execute_deploy_exactly_once_witness :
    resolveOpts sampleWorld sampleOpts = (.ok sampleOpts, []) ∧
    sampleWorld.bucketExists sampleOpts.bucketName = .ok false ∧
    verifyImages sampleWorld sampleOpts.imageRefs =
      (none, [Call.verifyImageExists sampleImage, Call.verifyImageExists sampleImage,
              Call.verifyImageExists sampleImage]) ∧
    sampleWorld.determineHomeDir = .ok "/home/user" ∧
    (sampleOpts.Execute sampleWorld).calls.filter isDeployApp =
      [Call.deployApp (filepathJoin "/home/user" cdkCoreDir)
        (buildEnvironmentVars sampleOpts false)] :=
  ⟨rfl, rfl, rfl, rfl,
   (execute_deploy_exactly_once sampleWorld sampleOpts sampleOpts [] false
      [Call.verifyImageExists sampleImage, Call.verifyImageExists sampleImage,
       Call.verifyImageExists sampleImage] rfl rfl rfl).2 "/home/user" rfl⟩

/-- If every event of the stream is error-free, the verbose loop ends
quietly in success. -/
lemma consumeProgress_all_ok (l : List ProgressEvent) (lastEvent : ProgressEvent)
    (h : ∀ x ∈ l, x.Err = none) : consumeProgress l lastEvent = ([], none) := by
  induction l generalizing lastEvent with
  | nil => rfl
  | cons x xs ih =>
    have hx : x.Err = none := h x (List.mem_cons_self _ _)
    simp [consumeProgress, hx, ih x (fun y hy => h y (List.mem_cons_of_mem _ hy))]

/-- The verbose loop stops at the first error event and reports the output
lines of the event just before it (or of the initial zero event). -/
lemma consumeProgress_first_err (pre : List ProgressEvent) (bad : ProgressEvent)
    (rest : List ProgressEvent) (lastEvent : ProgressEvent) (e : GoError)
    (hpre : ∀ x ∈ pre, x.Err = none) (hbad : bad.Err = some e) :
    consumeProgress (pre ++ bad :: rest) lastEvent =
      ((pre.getLastD lastEvent).Outputs, some e) := by
  induction pre generalizing lastEvent with
  | nil => simp [consumeProgress, hbad]
  | cons x xs ih =>
    have hx : x.Err = none := hpre x (List.mem_cons_self _ _)
    have ih2 := ih x (fun y hy => hpre y (List.mem_cons_of_mem _ hy))
    simp only [List.cons_append, consumeProgress, hx, List.getLastD_cons]
    exact ih2

/-- C7: progress events are consumed until closure or an error event; in
verbose mode an error event makes the loop emit the prior successful
event's output lines as the log and return the error, an error-free
stream yields success with nothing logged, and in non-verbose mode the
summarized `DisplayProgress` call is made and its result returned. -/
theorem deployCore_progress_consumption (w : World) (ev : List String)
    (home : String) (stream : List ProgressEvent)
    (hh : w.determineHomeDir = .ok home)
    (hd : w.deployApp (filepathJoin home cdkCoreDir) ev = .ok stream) :
    (w.verbose = true →
      (∀ pre bad rest e, stream = pre ++ bad :: rest →
        (∀ x ∈ pre, x.Err = none) → bad.Err = some e →
        (deployCoreInfrastructure w ev).result = some e ∧
        (deployCoreInfrastructure w ev).logged =
          (pre.getLastD ProgressEvent.zero).Outputs) ∧
      ((∀ x ∈ stream, x.Err = none) →
        (deployCoreInfrastructure w ev).result = none ∧
        (deployCoreInfrastructure w ev).logged = [])) ∧
    (w.verbose = false →
      (deployCoreInfrastructure w ev).result =
        w.displayProgress stream "Activating account..." ∧
      Call.displayProgress "Activating account..." ∈
        (deployCoreInfrastructure w ev).calls) := by
  constructor
  · intro hv
    constructor
    · intro pre bad rest e hs hpre hbad
      subst hs
      simp [deployCoreInfrastructure, hh, hd, hv,
        consumeProgress_first_err pre bad rest ProgressEvent.zero e hpre hbad]
    · intro hall
      simp [deployCoreInfrastructure, hh, hd, hv,
        consumeProgress_all_ok stream ProgressEvent.zero hall]
  · intro hv
    simp [deployCoreInfrastructure, hh, hd, hv]

/-- Concrete error-free progress event. -/
def sampleEventOk : ProgressEvent := ⟨["line1", "line2"], none⟩

/-- Concrete error-carrying progress event. -/
def sampleEventErr : ProgressEvent := ⟨["line3"], some sampleErr⟩

/-- A verbose world whose deployment stream has one good event followed by
an error event. -/
def sampleStreamWorld : World :=
  ⟨.ok "123456789012", fun _ => .ok false, fun _ => .ok (), .ok "/home/user",
   fun _ _ => .ok [sampleEventOk, sampleEventErr], fun _ _ => none, true⟩

/-- Witness for C7: verbose run over a stream whose second event errors,
replaying the first event's lines. -/
theorem deployCore_progress_consumption_witness :
    sampleStreamWorld.determineHomeDir = .ok "/home/user" ∧
    sampleStreamWorld.deployApp (filepathJoin "/home/user" cdkCoreDir) [] =
      .ok [sampleEventOk, sampleEventErr] ∧
    sampleStreamWorld.verbose = true ∧
    [sampleEventOk, sampleEventErr] = [sampleEventOk] ++ sampleEventErr :: [] ∧
    (∀ x ∈ [sampleEventOk], x.Err = none) ∧
    sampleEventErr.Err = some sampleErr ∧
    ((deployCoreInfrastructure sampleStreamWorld []).result = some sampleErr ∧
     (deployCoreInfrastructure sampleStreamWorld []).logged =
       ([sampleEventOk].getLastD ProgressEvent.zero).Outputs) :=
  ⟨rfl, rfl, rfl, rfl, by decide, rfl,
   ((deployCore_progress_consumption sampleStreamWorld [] "/home/user"
       [sampleEventOk, sampleEventErr] rfl rfl).1 rfl).1
     [sampleEventOk] sampleEventErr [] sampleErr rfl (by decide) rfl⟩

/-- C10: in verbose mode, when the very first progress event already
carries an error, nothing is logged (the prior event is the zero value
with no output lines) and that error is returned. -/
theorem deployCore_first_event_error (w : World) (ev : List String)
    (home : String) (outs : List String) (e : GoError)
    (rest : List ProgressEvent)
    (hv : w.verbose = true)
    (hh : w.determineHomeDir = .ok home)
    (hd : w.deployApp (filepathJoin home cdkCoreDir) ev =
      .ok (⟨outs, some e⟩ :: rest)) :
    (deployCoreInfrastructure w ev).result = some e ∧
    (deployCoreInfrastructure w ev).logged = [] := by
  simp [deployCoreInfrastructure, hh, hd, hv, consumeProgress, ProgressEvent.zero]

/-- A verbose world whose deployment stream starts with an error event. -/
def sampleFirstErrWorld : World :=
  ⟨.ok "123456789012", fun _ => .ok false, fun _ => .ok (), .ok "/home/user",
   fun _ _ => .ok [sampleEventErr], fun _ _ => none, true⟩

/-- Witness for C10: error on the very first event logs nothing. -/
theorem deployCore_first_event_error_witness :
    sampleFirstErrWorld.verbose = true ∧
    sampleFirstErrWorld.determineHomeDir = .ok "/home/user" ∧
    sampleFirstErrWorld.deployApp (filepathJoin "/home/user" cdkCoreDir) [] =
      .ok (⟨["line3"], some sampleErr⟩ :: []) ∧
    ((deployCoreInfrastructure sampleFirstErrWorld []).result = some sampleErr ∧
     (deployCoreInfrastructure sampleFirstErrWorld []).logged = []) :=
  ⟨rfl, rfl, rfl,
   deployCore_first_event_error sampleFirstErrWorld [] "/home/user"
     ["line3"] sampleErr [] rfl rfl rfl⟩

/-- C8: at the CLI boundary every error returned by `Execute` is wrapped
with the command name, the user-supplied variables and the fixed
remediation hint, and a successful `Execute` yields no error. -/
theorem run_account_activate_wraps (w : World) (vars : accountActivateVars)
    (imageRefs : List (String × ImageReference)) (region : String) :
    runAccountActivate w vars imageRefs region =
      Option.map
        (fun e => CliError.mk "account activate" vars e
          "check you have valid aws credentials, check the custom bucket and VPC (if any) exist")
        ((newAccountActivateOpts vars imageRefs region).Execute w).result := by
  unfold runAccountActivate
  cases ((newAccountActivateOpts vars imageRefs region).Execute w).result with
  | none => rfl
  | some e => rfl
